import Mathlib

/-!
Verification development for the Strategy Lab repository.

The data model and operations below are shallowly embedded from the
repository sources: JavaScript numbers are modelled as rationals,
`Math.floor` as the integer floor, `Math.random()` as an explicit oracle
argument (a stream of draws consumed left to right), and HTTP handlers
as pure functions from their request data and the backend's reply to a
structured response.  Components of the core engine (order book,
multi-source merger) that the repository documents but whose
implementation is not present are modelled from the specification text;
this is noted on each such definition.
-/

namespace StrategyLab

/-! ## Optimization panel (frontend/components/optimization/OptimizationPanel.tsx) -/

/-- One optimization parameter row of the panel, from the
`OptimizationParameter` interface: `name`, `min`, `max`, `step`,
`current`, all JS numbers (modelled as rationals). -/
structure OptimizationParameter where
  name : String
  min : ℚ
  max : ℚ
  step : ℚ
  current : ℚ
  deriving DecidableEq, Repr

/-- Embedding of `calculateTotalCombinations`: a `reduce` over the
parameter list with initial accumulator `1`, multiplying in
`Math.floor((param.max - param.min) / param.step) + 1` for each
parameter. -/
def calculateTotalCombinations (parameters : List OptimizationParameter) : ℚ :=
  parameters.foldl
    (fun total param => total * ((⌊(param.max - param.min) / param.step⌋ : ℤ) + 1 : ℚ))
    1

/-- The per-parameter step count used by `calculateTotalCombinations`. -/
def comboCount (param : OptimizationParameter) : ℚ :=
  ((⌊(param.max - param.min) / param.step⌋ : ℤ) + 1 : ℚ)

theorem foldl_mul_comboCount (l : List OptimizationParameter) :
    ∀ a : ℚ,
      l.foldl (fun total param => total * comboCount param) a
        = a * (l.map comboCount).prod := by
  induction l with
  | nil => intro a; simp
  | cons x xs ih =>
      intro a
      simp only [List.foldl_cons, List.map_cons, List.prod_cons, ih, mul_assoc]

/-! ## Strategy library filter (src/unnamed/part_016, `StrategyLibrary`) -/

/-- The aggregate performance block of a strategy card. -/
structure StrategyPerformance where
  sharpe : ℚ
  winRate : ℚ
  totalTrades : ℚ
  deriving DecidableEq, Repr

/-- The `Strategy` interface of the strategy library component.  The
`type` and `status` string unions are kept as strings, as the filter
compares them as strings. -/
structure Strategy where
  id : String
  name : String
  description : String
  type : String
  status : String
  lastModified : String
  performance : StrategyPerformance
  deriving DecidableEq, Repr

/-- JavaScript `s.toLowerCase()`, modelled as lower-casing each
character of the string. -/
def jsToLower (s : String) : String :=
  ⟨s.data.map Char.toLower⟩

/-- JavaScript `haystack.includes(needle)`: `needle` occurs as a
contiguous substring of `haystack`. -/
def jsIncludes (haystack needle : String) : Bool :=
  decide (needle.data <:+: haystack.data)

/-- Embedding of `filteredStrategies`: keep a strategy when its
lower-cased name or description contains the lower-cased search term,
and its type matches the selection (with `all` matching every type). -/
def filteredStrategies (searchTerm selectedType : String)
    (strategies : List Strategy) : List Strategy :=
  strategies.filter fun strategy =>
    (jsIncludes (jsToLower strategy.name) (jsToLower searchTerm)
      || jsIncludes (jsToLower strategy.description) (jsToLower searchTerm))
    && (selectedType == "all" || strategy.type == selectedType)

/-- C9: for every list of optimization parameters,
`calculateTotalCombinations` returns the product over all parameters of
`floor((max - min) / step) + 1`, and returns `1` for the empty list. -/
theorem calculateTotalCombinations_eq_prod :
    (∀ parameters : List OptimizationParameter,
        calculateTotalCombinations parameters
          = (parameters.map
              (fun param => ((⌊(param.max - param.min) / param.step⌋ : ℤ) + 1 : ℚ))).prod)
    ∧ calculateTotalCombinations [] = 1 := by
  constructor
  · intro parameters
    have h := foldl_mul_comboCount parameters 1
    simpa [calculateTotalCombinations, comboCount] using h
  · rfl

/-- C10: the strategy library filter keeps exactly the strategies whose
name or description contains the search term case-insensitively and
whose type equals the selection (any type when `all` is selected); with
an empty search term and type `all`, every strategy is kept. -/
theorem filteredStrategies_spec :
    (∀ (searchTerm selectedType : String) (strategies : List Strategy) (s : Strategy),
        s ∈ filteredStrategies searchTerm selectedType strategies ↔
          s ∈ strategies
          ∧ ((jsToLower searchTerm).data <:+: (jsToLower s.name).data
              ∨ (jsToLower searchTerm).data <:+: (jsToLower s.description).data)
          ∧ (selectedType = "all" ∨ s.type = selectedType))
    ∧ ∀ strategies : List Strategy, filteredStrategies "" "all" strategies = strategies := by
  constructor
  · intro searchTerm selectedType strategies s
    simp [filteredStrategies, List.mem_filter, jsIncludes, and_assoc]
  · intro strategies
    apply List.filter_eq_self.mpr
    intro s _
    have hempty : ((jsToLower "").data : List Char) = [] := by decide
    simp [jsIncludes, hempty]

/-! ## Backtest run status (src/unnamed/part_018, `backtest_runs.valid_status`) -/

/-- The `valid_status` CHECK constraint of the `backtest_runs` table:
`status IN ('pending', 'running', 'completed', 'failed', 'cancelled')`,
written as the SQL disjunction of equalities. -/
def validStatus (s : String) : Bool :=
  s == "pending" || s == "running" || s == "completed" || s == "failed" || s == "cancelled"

/-- Modelled from the spec: the run state machine is
`Idle → Running → {Completed | Aborted | Cancelled}`, with the schema
encoding `Idle` as `pending` and `Running` as `running`; every other
valid status is terminal.  (`failed` is the schema's name for the
spec's `Aborted`, which carries `error_message` as the reason.) -/
def isTerminalStatus (s : String) : Bool :=
  validStatus s && !(s == "pending" || s == "running")

/-- C5: a valid terminal status of a backtest run is exactly one of
`completed`, `failed` (the spec's `Aborted`, with `error_message` as
its reason), or `cancelled`; no other terminal status is admitted by
the `valid_status` constraint. -/
theorem terminalStatus_iff :
    ∀ s : String,
      isTerminalStatus s = true ↔ (s = "completed" ∨ s = "failed" ∨ s = "cancelled") := by
  intro s
  constructor
  · intro h
    simp only [isTerminalStatus, validStatus, Bool.and_eq_true, Bool.or_eq_true,
      beq_iff_eq, Bool.not_eq_true', Bool.or_eq_false_iff, beq_eq_false_iff_ne] at h
    tauto
  · rintro (rfl | rfl | rfl) <;> decide

/-! ## Backtest configuration (frontend/components/backtest/BacktestPanel.tsx) -/

/-- The `slippageModel` union of `BacktestConfig`:
`'fixed' | 'linear' | 'square_root'`. -/
inductive SlippageModel where
  | fixed
  | linear
  | square_root
  deriving DecidableEq, Repr

/-- The `BacktestConfig` interface of the backtest panel (JS numbers as
rationals). -/
structure BacktestConfig where
  strategy : String
  startDate : String
  endDate : String
  initialCapital : ℚ
  positionSize : ℚ
  maxPositions : ℚ
  commissionRate : ℚ
  slippageModel : SlippageModel
  slippageValue : ℚ
  deriving DecidableEq, Repr

/-- The option values offered by the `slippage-model` select element. -/
def slippageModelOptions : List String := ["fixed", "linear", "square_root"]

/-- Decoding of a select value into the `slippageModel` union (the
cast `e.target.value as any` admits exactly the three option values of
the select). -/
def parseSlippageModel : String → Option SlippageModel
  | "fixed" => some .fixed
  | "linear" => some .linear
  | "square_root" => some .square_root
  | _ => none

/-- C6: the slippage model ranges over exactly three choices — fixed,
linear and square-root: the type has exactly those inhabitants, a
select value decodes iff it is one of the three options, and every
backtest configuration carries one of the three. -/
theorem slippageModel_exactly_three :
    (∀ m : SlippageModel, m = .fixed ∨ m = .linear ∨ m = .square_root)
    ∧ (∀ s : String, (parseSlippageModel s).isSome = true ↔ s ∈ slippageModelOptions)
    ∧ (∀ c : BacktestConfig,
        c.slippageModel = .fixed ∨ c.slippageModel = .linear
          ∨ c.slippageModel = .square_root) := by
  refine ⟨fun m => by cases m <;> simp, fun s => ?_, fun c => by cases h : c.slippageModel <;> simp [h]⟩
  constructor
  · intro h
    by_cases h1 : s = "fixed"
    · simp [slippageModelOptions, h1]
    by_cases h2 : s = "linear"
    · simp [slippageModelOptions, h2]
    by_cases h3 : s = "square_root"
    · simp [slippageModelOptions, h3]
    · simp [parseSlippageModel, h1, h2, h3] at h
  · intro h
    rcases (by simpa [slippageModelOptions] using h :
        s = "fixed" ∨ s = "linear" ∨ s = "square_root") with rfl | rfl | rfl <;> decide

/-! ## Strategies DELETE handler (frontend/app/api/strategies/route.ts) -/

/-- A JSON body produced by the proxy handlers: either an error object
`\x7b error: msg \x7d` or the success object `\x7b success: true \x7d`. -/
inductive ResponseBody where
  | errorMsg (msg : String)
  | success
  deriving DecidableEq, Repr

/-- A `NextResponse.json` value: the JSON body plus the HTTP status
(200 when none is given). -/
structure ApiResponse where
  status : Nat
  body : ResponseBody
  deriving DecidableEq, Repr

/-- Embedding of the DELETE handler.  `id` is
`searchParams.get('id')` (`none` when the query string lacks the
parameter); `backend` is the `fetch` to
`BACKEND_URL/api/strategies/id`, returning the HTTP status or a thrown
network error.  The second component records the ids of the backend
requests the handler issued.  JS `!id` is true for both `null` and the
empty string; `response.ok` is status 200–299. -/
def deleteStrategies (id : Option String) (backend : String → Except Unit Nat) :
    ApiResponse × List String :=
  match id with
  | none => ({ status := 400, body := .errorMsg "Strategy ID required" }, [])
  | some s =>
    if s = "" then
      ({ status := 400, body := .errorMsg "Strategy ID required" }, [])
    else
      match backend s with
      | .error _ => ({ status := 500, body := .errorMsg "Failed to delete strategy" }, [s])
      | .ok st =>
        if (200 ≤ st && st < 300) || st == 204 then
          ({ status := 200, body := .success }, [s])
        else
          ({ status := 500, body := .errorMsg "Failed to delete strategy" }, [s])

/-- C8: a DELETE request without an `id` query parameter is answered
with status 400 and the error message `Strategy ID required`, and no
backend request is issued, whatever the backend would have replied. -/
theorem deleteStrategies_missing_id :
    ∀ backend : String → Except Unit Nat,
      deleteStrategies none backend
        = ({ status := 400, body := .errorMsg "Strategy ID required" }, ([] : List String)) :=
  fun _ => rfl

/-! ## Monitoring summary handler (frontend/app/api/strategies/route.ts, GET monitor)

`Math.random()` is modelled as an oracle `rand : Nat → ℚ`, each call
site consuming the next draw in evaluation order; `new
Date().toISOString()` as an explicit `now` argument. -/

/-- The backend `/api/monitor` reply consumed by the handler. -/
structure BackendMonitorData where
  timestamp : String
  cpu_usage : ℚ
  memory_used : ℚ
  memory_total : ℚ
  disk_io : ℚ
  threads_active : ℚ
  deriving DecidableEq, Repr

/-- The `cpu` block of the summary. -/
structure CpuInfo where
  usage : ℚ
  cores : ℚ
  temperature : ℚ
  deriving DecidableEq, Repr

/-- The `memory` block of the summary. -/
structure MemoryInfo where
  used : ℚ
  total : ℚ
  available : ℚ
  percentage : ℚ
  deriving DecidableEq, Repr

/-- The `disk` block of the summary. -/
structure DiskInfo where
  read : ℚ
  write : ℚ
  total : ℚ
  iops : ℤ
  deriving DecidableEq, Repr

/-- The `network` block of the summary. -/
structure NetworkInfo where
  «in» : ℚ
  out : ℚ
  connections : ℤ
  deriving DecidableEq, Repr

/-- The `threads` block of the summary. -/
structure ThreadsInfo where
  active : ℚ
  total : ℚ
  idle : ℚ
  deriving DecidableEq, Repr

/-- The `system` block of the summary. -/
structure SystemInfo where
  cpu : CpuInfo
  memory : MemoryInfo
  disk : DiskInfo
  network : NetworkInfo
  threads : ThreadsInfo
  deriving DecidableEq, Repr

/-- The `processing` block of the summary (`avgLatency` is a string in
the source, produced by `toFixed(2)`). -/
structure ProcessingInfo where
  ticksProcessed : ℤ
  ticksPerSecond : ℤ
  orderBookOps : ℤ
  avgLatency : String
  uptime : ℚ
  uptimeHours : ℚ
  deriving DecidableEq, Repr

/-- The `components` block of the summary. -/
structure ComponentsInfo where
  dataIngestion : String
  orderBookReconstruction : String
  backtestingEngine : String
  optimizationEngine : String
  websocketServer : String
  database : String
  cache : String
  messageQueue : String
  deriving DecidableEq, Repr

/-- One entry of the `alerts` array. -/
structure Alert where
  level : String
  message : String
  timestamp : String
  deriving DecidableEq, Repr

/-- One point of a history series. -/
structure HistoryPoint where
  time : ℕ
  value : ℚ
  deriving DecidableEq, Repr

/-- The `history` block of the summary. -/
structure HistoryInfo where
  cpu : List HistoryPoint
  memory : List HistoryPoint
  threads : List HistoryPoint
  deriving DecidableEq, Repr

/-- The whole monitoring summary payload. -/
structure MonitorData where
  timestamp : String
  system : SystemInfo
  processing : ProcessingInfo
  components : ComponentsInfo
  alerts : List Alert
  history : HistoryInfo
  deriving DecidableEq, Repr

/-- The handler's outcome: a JSON summary (status 200) or a JSON error
object with an explicit status. -/
inductive MonitorResult where
  | summary (data : MonitorData)
  | errorJson (msg : String) (status : Nat)
  deriving DecidableEq, Repr

/-- Two-digit zero padding of a nonnegative integer. -/
def pad2 (n : ℤ) : String :=
  if n < 10 then "0" ++ toString n else toString n

/-- JavaScript `q.toFixed(2)` for the nonnegative values used by the
handlers: round to two decimals and print with exactly two fraction
digits. -/
def jsToFixed2 (q : ℚ) : String :=
  let n : ℤ := ⌊q * 100 + 1 / 2⌋
  toString (n / 100) ++ "." ++ pad2 (n % 100)

/-- The summary built in the `try` branch of the monitor GET handler
from a successful backend reply. -/
def monitorSummaryOf (data : BackendMonitorData) (rand : Nat → ℚ) (now : String) :
    MonitorData :=
  { timestamp := data.timestamp
    system :=
      { cpu :=
          { usage := data.cpu_usage
            cores := 8
            temperature := 55 + rand 0 * 10 }
        memory :=
          { used := data.memory_used
            total := data.memory_total
            available := data.memory_total - data.memory_used
            percentage := data.memory_used / data.memory_total * 100 }
        disk :=
          { read := data.disk_io * (6 / 10)
            write := data.disk_io * (4 / 10)
            total := data.disk_io
            iops := ⌊data.disk_io * 10⌋ }
        network :=
          { «in» := rand 1 * 100
            out := rand 2 * 50
            connections := ⌊rand 3 * 20⌋ + 10 }
        threads :=
          { active := data.threads_active
            total := 16
            idle := 16 - data.threads_active } }
    processing :=
      { ticksProcessed := ⌊4530000 + rand 4 * 100000⌋
        ticksPerSecond := ⌊10000 + rand 5 * 5000⌋
        orderBookOps := ⌊98500 + rand 6 * 10000⌋
        avgLatency := jsToFixed2 (1 / 2 + rand 7 * (1 / 2))
        uptime := 999 / 10
        uptimeHours := 275 / 100 }
    components :=
      { dataIngestion := "operational"
        orderBookReconstruction := "operational"
        backtestingEngine := if (1 / 2 : ℚ) < rand 8 then "idle" else "running"
        optimizationEngine := if (7 / 10 : ℚ) < rand 9 then "running" else "idle"
        websocketServer := "connected"
        database := "operational"
        cache := "operational"
        messageQueue := "operational" }
    alerts := [{ level := "info", message := "System running optimally", timestamp := now }]
    history :=
      { cpu := (List.range 20).map fun i =>
          { time := i, value := data.cpu_usage + (rand (10 + i) - 1 / 2) * 10 }
        memory := (List.range 20).map fun i =>
          { time := i, value := data.memory_used + (rand (30 + i) - 1 / 2) * 2 }
        threads := (List.range 20).map fun i =>
          { time := i, value := data.threads_active + (⌊(rand (50 + i) - 1 / 2) * 4⌋ : ℤ) } } }

/-- The simulated fallback summary built in the `catch` branch of the
monitor GET handler. -/
def monitorFallback (rand : Nat → ℚ) (now : String) : MonitorData :=
  let cpuUsage : ℚ := 35 + rand 0 * 20
  let memoryUsed : ℚ := 10 + rand 1 * 5
  let diskIo : ℚ := 100 + rand 2 * 100
  { timestamp := now
    system :=
      { cpu :=
          { usage := cpuUsage
            cores := 8
            temperature := 55 + rand 3 * 10 }
        memory :=
          { used := memoryUsed
            total := 32
            available := 32 - memoryUsed
            percentage := memoryUsed / 32 * 100 }
        disk :=
          { read := diskIo * (6 / 10)
            write := diskIo * (4 / 10)
            total := diskIo
            iops := ⌊diskIo * 10⌋ }
        network :=
          { «in» := rand 4 * 100
            out := rand 5 * 50
            connections := ⌊rand 6 * 20⌋ + 10 }
        threads :=
          { active := (⌊rand 7 * 8⌋ : ℤ) + 4
            total := 16
            idle := 16 - (⌊rand 8 * 8⌋ : ℤ) - 4 } }
    processing :=
      { ticksProcessed := ⌊4530000 + rand 9 * 100000⌋
        ticksPerSecond := ⌊10000 + rand 10 * 5000⌋
        orderBookOps := ⌊98500 + rand 11 * 10000⌋
        avgLatency := jsToFixed2 (1 / 2 + rand 12 * (1 / 2))
        uptime := 999 / 10
        uptimeHours := 275 / 100 }
    components :=
      { dataIngestion := "operational"
        orderBookReconstruction := "operational"
        backtestingEngine := if (1 / 2 : ℚ) < rand 13 then "idle" else "running"
        optimizationEngine := if (7 / 10 : ℚ) < rand 14 then "running" else "idle"
        websocketServer := "connected"
        database := "operational"
        cache := "operational"
        messageQueue := "operational" }
    alerts := [{ level := "info", message := "System running optimally", timestamp := now }]
    history :=
      { cpu := (List.range 20).map fun i =>
          { time := i, value := 35 + rand (15 + i) * 20 }
        memory := (List.range 20).map fun i =>
          { time := i, value := 10 + rand (35 + i) * 5 }
        threads := (List.range 20).map fun i =>
          { time := i, value := ((⌊rand (55 + i) * 8⌋ : ℤ) + 4 : ℚ) } } }

/-- Embedding of the monitor GET handler: transform the backend reply
when the fetch succeeds, fall back to simulated data when anything in
the `try` block throws. -/
def monitorGET (backend : Except Unit BackendMonitorData) (rand : Nat → ℚ)
    (now : String) : MonitorResult :=
  match backend with
  | .ok data => .summary (monitorSummaryOf data rand now)
  | .error _ => .summary (monitorFallback rand now)

/-- C7: the monitoring summary handler never produces an error result:
for every backend outcome (including a failed fetch), every randomness
oracle and every clock reading, it returns a summary. -/
theorem monitorGET_always_summary :
    ∀ (backend : Except Unit BackendMonitorData) (rand : Nat → ℚ) (now : String),
      ∃ d : MonitorData, monitorGET backend rand now = .summary d := by
  intro backend rand now
  cases backend with
  | ok data => exact ⟨monitorSummaryOf data rand now, rfl⟩
  | error e => exact ⟨monitorFallback rand now, rfl⟩

/-! ## Backtest run handler (frontend/app/api/strategies/route.ts, POST backtest) -/

/-- JavaScript `Math.round`. -/
def jsRound (q : ℚ) : ℤ := ⌊q + 1 / 2⌋

/-- JavaScript `v || dflt` for an optional number (`null`, `undefined`
and `0` are falsy). -/
def jsOrNum (v : Option ℚ) (dflt : ℚ) : ℚ :=
  match v with
  | none => dflt
  | some c => if c = 0 then dflt else c

/-- JavaScript `v || dflt` for an optional string (`null`, `undefined`
and the empty string are falsy). -/
def jsOrStr (v : Option String) (dflt : String) : String :=
  match v with
  | none => dflt
  | some s => if s = "" then dflt else s

/-- The `metrics` object of the backend `/api/backtest` reply. -/
structure BackendBacktestMetrics where
  total_return : ℚ
  total_return_amount : ℚ
  sharpe_ratio : ℚ
  max_drawdown : ℚ
  win_rate : ℚ
  total_trades : ℚ
  deriving DecidableEq, Repr

/-- One equity-curve point (`day`, `value`). -/
structure EquityCurvePoint where
  day : ℚ
  value : ℚ
  deriving DecidableEq, Repr

/-- The backend `/api/backtest` reply consumed by the handler. -/
structure BackendBacktestData where
  id : String
  status : String
  strategy : String
  metrics : BackendBacktestMetrics
  equity_curve : List EquityCurvePoint
  deriving DecidableEq, Repr

/-- The request body of the backtest POST route. -/
structure BacktestRequestBody where
  strategy : String
  initialCapital : Option ℚ
  startDate : Option String
  endDate : Option String
  deriving DecidableEq, Repr

/-- The `metrics` object the handler returns to the frontend. -/
structure BacktestMetrics where
  totalReturn : ℚ
  totalReturnAmount : ℚ
  sharpeRatio : ℚ
  maxDrawdown : ℚ
  maxDrawdownAmount : ℚ
  winRate : ℚ
  totalTrades : ℚ
  winningTrades : ℤ
  losingTrades : ℤ
  avgWin : ℚ
  avgLoss : ℚ
  bestTrade : ℚ
  worstTrade : ℚ
  avgTradeDuration : ℚ
  commissionPaid : ℚ
  slippageCost : ℚ
  profitFactor : ℚ
  sortinoRatio : ℚ
  calmarRatio : ℚ
  deriving DecidableEq, Repr

/-- One trade record of the handler's reply. -/
structure Trade where
  id : ℤ
  entryTime : String
  exitTime : String
  side : String
  entryPrice : ℚ
  exitPrice : ℚ
  quantity : ℤ
  pnl : ℚ
  «return» : ℚ
  deriving DecidableEq, Repr

/-- Embedding of the mock-trades block of the handler (the source
comment reads `Add mock trades for now until backend provides them`):
ten trades whose side, prices, quantity, pnl and return are drawn from
`Math.random()`, modelled as the oracle `rand` consumed in evaluation
order (six draws per trade). -/
def mockTrades (rand : Nat → ℚ) : List Trade :=
  (List.range 10).map fun (i : ℕ) =>
    { id := (i : ℤ) + 1
      entryTime := "2024-01-" ++ pad2 ((i : ℤ) + 1) ++ " 09:" ++ pad2 (30 + (i : ℤ)) ++ ":00"
      exitTime := "2024-01-" ++ pad2 ((i : ℤ) + 1) ++ " 10:" ++ pad2 (15 + (i : ℤ)) ++ ":00"
      side := if (1 / 2 : ℚ) < rand (6 * i : ℕ) then "long" else "short"
      entryPrice := 17000 + rand (6 * i + 1 : ℕ) * 100
      exitPrice := 17000 + rand (6 * i + 2 : ℕ) * 100
      quantity := ⌊rand (6 * i + 3 : ℕ) * 5⌋ + 1
      pnl := (rand (6 * i + 4 : ℕ) - 38 / 100) * 500
      «return» := (rand (6 * i + 5 : ℕ) - 38 / 100) * (2 / 100) }

/-- The full reply object of the backtest POST handler. -/
structure BacktestResult where
  id : String
  status : String
  strategy : String
  startDate : String
  endDate : String
  initialCapital : ℚ
  metrics : BacktestMetrics
  equityCurve : List EquityCurvePoint
  trades : List Trade
  deriving DecidableEq, Repr

/-- The handler's outcome: the transformed result or a JSON error. -/
inductive BacktestResponse where
  | ok (data : BacktestResult)
  | errorJson (msg : String) (status : Nat)
  deriving DecidableEq, Repr

/-- Embedding of the backtest POST handler: forward the request to the
backend, then transform its reply, adding hard-coded metric fields and
the random mock trades. -/
def backtestPOST (body : BacktestRequestBody)
    (backend : Except Unit BackendBacktestData) (rand : Nat → ℚ) : BacktestResponse :=
  match backend with
  | .error _ => .errorJson "Failed to run backtest" 500
  | .ok data =>
    .ok
      { id := data.id
        status := data.status
        strategy := data.strategy
        startDate := jsOrStr body.startDate "2024-01-01"
        endDate := jsOrStr body.endDate "2024-01-31"
        initialCapital := jsOrNum body.initialCapital 100000
        metrics :=
          { totalReturn := data.metrics.total_return
            totalReturnAmount := data.metrics.total_return_amount
            sharpeRatio := data.metrics.sharpe_ratio
            maxDrawdown := data.metrics.max_drawdown
            maxDrawdownAmount := data.metrics.max_drawdown * jsOrNum body.initialCapital 100000
            winRate := data.metrics.win_rate
            totalTrades := data.metrics.total_trades
            winningTrades := jsRound (data.metrics.total_trades * data.metrics.win_rate)
            losingTrades := jsRound (data.metrics.total_trades * (1 - data.metrics.win_rate))
            avgWin := 1254 / 10
            avgLoss := -746 / 10
            bestTrade := 8905 / 10
            worstTrade := -4203 / 10
            avgTradeDuration := 23
            commissionPaid := 1250
            slippageCost := 780
            profitFactor := 21 / 10
            sortinoRatio := 245 / 100
            calmarRatio := 295 / 100 }
        equityCurve := data.equity_curve.map fun point => { day := point.day, value := point.value }
        trades := mockTrades rand }

/-- A fixed backtest request used to exhibit the nondeterminism. -/
def sampleBacktestBody : BacktestRequestBody :=
  { strategy := "order_book_imbalance"
    initialCapital := some 100000
    startDate := some "2024-01-01"
    endDate := some "2024-01-31" }

/-- A fixed backend reply used to exhibit the nondeterminism. -/
def sampleBackendReply : BackendBacktestData :=
  { id := "bt-1"
    status := "completed"
    strategy := "order_book_imbalance"
    metrics :=
      { total_return := 12 / 100
        total_return_amount := 12000
        sharpe_ratio := 185 / 100
        max_drawdown := 8 / 100
        win_rate := 62 / 100
        total_trades := 100 }
    equity_curve := [{ day := 0, value := 100000 }, { day := 1, value := 100500 }] }

/-- The side of the first trade of a backtest reply (the observation
that separates the two runs below). -/
def firstTradeSide : BacktestResponse → Option String
  | .ok d => (d.trades.map Trade.side).head?
  | .errorJson _ _ => none

theorem firstTradeSide_backtestPOST (body : BacktestRequestBody)
    (data : BackendBacktestData) (rand : Nat → ℚ) :
    firstTradeSide (backtestPOST body (.ok data) rand)
      = some (if (1 / 2 : ℚ) < rand 0 then "long" else "short") := by
  have hrange : List.range 10 = 0 :: (List.range 9).map Nat.succ :=
    List.range_succ_eq_map 9
  simp [firstTradeSide, backtestPOST, mockTrades, hrange]

/-- C1: the backtest-run handler is not deterministic: with the same
request body and the same backend reply, two invocations whose
(non-seeded) `Math.random()` draws differ return different Trade
sequences, contradicting the determinism guarantee. -/
theorem backtestPOST_not_deterministic :
    backtestPOST sampleBacktestBody (.ok sampleBackendReply) (fun _ => 0)
      ≠ backtestPOST sampleBacktestBody (.ok sampleBackendReply) (fun _ => 9 / 10) := by
  intro h
  have h2 := congrArg firstTradeSide h
  rw [firstTradeSide_backtestPOST, firstTradeSide_backtestPOST] at h2
  norm_num at h2
  exact absurd h2 (by decide)

/-! ## Order Book Engine (spec §3, §4.4)

Modelled from the spec: the Order Book Engine is documented throughout
the repository (PRD, database schema, implementation summaries) but its
implementation (a Rust module) is not present in the source tree, so
the ladder semantics below follow the specification text: a per-side
ladder indexed by zero-based depth with the best level first, `Add`
inserting at `depth` and shifting existing levels away from best,
`Update` replacing size (and market maker, if the event carries one) of
the existing level, `Remove` deleting it and shifting deeper levels
toward best, `Update`/`Remove` on a missing depth an idempotent no-op
raising a non-fatal `StaleUpdateFault`, and a post-mutation crossed-book
check that aborts under `Strict` and rolls the mutation back (flagging a
`CrossedBookFault`) under `Lenient`. -/

/-- The side of the book an L2 operation addresses. -/
inductive BookSide where
  | bid
  | ask
  deriving DecidableEq, Repr

/-- The L2 ladder operation codes (0=Add, 1=Update, 2=Remove). -/
inductive L2Op where
  | add
  | update
  | remove
  deriving DecidableEq, Repr

/-- The eleven market-data types of an L1 record. -/
inductive MDT where
  | ask
  | bid
  | last
  | dailyHigh
  | dailyLow
  | dailyVolume
  | lastClose
  | opening
  | openInterest
  | settlement
  | unknown
  deriving DecidableEq, Repr

/-- One resting quote of the ladder: `price`, `size`, optional
`market_maker`. -/
structure OrderBookLevel where
  price : ℚ
  size : ℤ
  market_maker : Option String
  deriving DecidableEq, Repr

/-- The L1 summary scalars held by a book: last trade price/size and
the daily statistics. -/
structure L1Summary where
  lastPrice : Option ℚ
  lastSize : Option ℤ
  dailyHigh : Option ℚ
  dailyLow : Option ℚ
  dailyVolume : Option ℤ
  opening : Option ℚ
  lastClose : Option ℚ
  settlement : Option ℚ
  openInterest : Option ℤ
  deriving DecidableEq, Repr

/-- The empty L1 summary. -/
def L1Summary.empty : L1Summary :=
  { lastPrice := none, lastSize := none, dailyHigh := none, dailyLow := none
    dailyVolume := none, opening := none, lastClose := none, settlement := none
    openInterest := none }

/-- One per-instrument order book: the two depth-indexed, best-first
ladders plus the L1 summary scalars. -/
structure OrderBook where
  bids : List OrderBookLevel
  asks : List OrderBookLevel
  summary : L1Summary
  deriving DecidableEq, Repr

/-- The book created lazily on the first tick of an instrument. -/
def OrderBook.empty : OrderBook :=
  { bids := [], asks := [], summary := L1Summary.empty }

/-- One event consumed by the engine: an L2 ladder operation or an L1
summary update. -/
inductive BookEvent where
  | l2 (side : BookSide) (op : L2Op) (depth : ℕ) (price : ℚ) (volume : ℤ)
      (market_maker : Option String)
  | l1 (mdt : MDT) (price : ℚ) (volume : ℤ)
  deriving DecidableEq, Repr

/-- The book-integrity fault kinds of §4.4. -/
inductive BookIntegrityFault where
  | staleUpdateFault
  | crossedBookFault
  deriving DecidableEq, Repr

/-- The validation policy of §4.2/§4.4. -/
inductive ValidationPolicy where
  | strict
  | lenient
  deriving DecidableEq, Repr

/-- The ladder of one side of a book. -/
def ladder (b : OrderBook) : BookSide → List OrderBookLevel
  | .bid => b.bids
  | .ask => b.asks

/-- Replace the ladder of one side of a book. -/
def setLadder (b : OrderBook) : BookSide → List OrderBookLevel → OrderBook
  | .bid, l => { b with bids := l }
  | .ask, l => { b with asks := l }

/-- The L2 ladder mutation: `Add` inserts at `depth` shifting existing
levels away from best; `Update` replaces the size (and market maker,
when the event carries one) of the level at `depth`; `Remove` deletes
it, shifting deeper levels toward best.  `Update`/`Remove` on a missing
depth leave the ladder unchanged and raise `StaleUpdateFault`. -/
def applyL2 (levels : List OrderBookLevel) (op : L2Op) (depth : ℕ) (price : ℚ)
    (volume : ℤ) (mm : Option String) :
    List OrderBookLevel × List BookIntegrityFault :=
  match op with
  | .add => (levels.insertIdx depth ⟨price, volume, mm⟩, [])
  | .update =>
    match levels.get? depth with
    | some lvl =>
      (levels.set depth
        { lvl with
            size := volume
            market_maker := match mm with | some m => some m | none => lvl.market_maker },
        [])
    | none => (levels, [.staleUpdateFault])
  | .remove =>
    match levels.get? depth with
    | some _ => (levels.eraseIdx depth, [])
    | none => (levels, [.staleUpdateFault])

/-- The L1 summary mutation: each market-data type updates its scalar;
L1 `Ask`/`Bid`/`Unknown` records touch neither the listed scalars nor
the ladder. -/
def applySummary (s : L1Summary) (mdt : MDT) (price : ℚ) (volume : ℤ) : L1Summary :=
  match mdt with
  | .last => { s with lastPrice := some price, lastSize := some volume }
  | .dailyHigh => { s with dailyHigh := some price }
  | .dailyLow => { s with dailyLow := some price }
  | .dailyVolume => { s with dailyVolume := some volume }
  | .lastClose => { s with lastClose := some price }
  | .opening => { s with opening := some price }
  | .openInterest => { s with openInterest := some volume }
  | .settlement => { s with settlement := some price }
  | .ask | .bid | .unknown => s

/-- The raw mutation of one event, before the crossed-book check. -/
def applyRaw (b : OrderBook) : BookEvent → OrderBook × List BookIntegrityFault
  | .l2 side op depth price volume mm =>
    let r := applyL2 (ladder b side) op depth price volume mm
    (setLadder b side r.1, r.2)
  | .l1 mdt price volume =>
    ({ b with summary := applySummary b.summary mdt price volume }, [])

/-- Best bid: the first (most competitive) level of the bid ladder. -/
def OrderBook.bestBid (b : OrderBook) : Option OrderBookLevel := b.bids.head?

/-- Best ask: the first (most competitive) level of the ask ladder. -/
def OrderBook.bestAsk (b : OrderBook) : Option OrderBookLevel := b.asks.head?

/-- The crossed-book test: both sides non-empty and
`best_ask.price < best_bid.price`. -/
def OrderBook.crossed (b : OrderBook) : Bool :=
  match b.bestBid, b.bestAsk with
  | some bb, some ba => decide (ba.price < bb.price)
  | _, _ => false

/-- The engine invariant as a Boolean: the book is not crossed. -/
def bidAskOk (b : OrderBook) : Bool := !b.crossed

/-- The engine invariant as stated by the spec: whenever both sides are
non-empty, `best_bid.price ≤ best_ask.price`. -/
def bidNotAboveAsk (b : OrderBook) : Prop :=
  ∀ bb ∈ b.bestBid, ∀ ba ∈ b.bestAsk, bb.price ≤ ba.price

theorem bidAskOk_iff (b : OrderBook) : bidAskOk b = true ↔ bidNotAboveAsk b := by
  unfold bidAskOk OrderBook.crossed bidNotAboveAsk
  cases hb : b.bestBid with
  | none => simp [hb]
  | some bb =>
    cases ha : b.bestAsk with
    | none => simp [hb, ha]
    | some ba => simp [hb, ha, not_lt]

/-- The engine's `apply(event)`: perform the raw mutation, then check
the crossed-book invariant; a violation aborts under `Strict` and is
rolled back (restoring the prior state) and flagged under `Lenient`. -/
def OrderBook.apply (policy : ValidationPolicy) (b : OrderBook) (e : BookEvent) :
    Except BookIntegrityFault (OrderBook × List BookIntegrityFault) :=
  if (applyRaw b e).1.crossed then
    match policy with
    | .strict => .error .crossedBookFault
    | .lenient => .ok (b, (applyRaw b e).2 ++ [.crossedBookFault])
  else
    .ok (applyRaw b e)

/-- Replay of a whole event sequence through `apply`, accumulating the
non-fatal faults, stopping at the first fatal fault. -/
def OrderBook.applyAll (policy : ValidationPolicy) (b : OrderBook) :
    List BookEvent → Except BookIntegrityFault (OrderBook × List BookIntegrityFault)
  | [] => .ok (b, [])
  | e :: es =>
    match b.apply policy e with
    | .error f => .error f
    | .ok (b2, fs) =>
      match b2.applyAll policy es with
      | .error f => .error f
      | .ok (b3, fs2) => .ok (b3, fs ++ fs2)

theorem apply_preserves_bidAskOk (policy : ValidationPolicy) (b : OrderBook)
    (e : BookEvent) (b2 : OrderBook) (fs : List BookIntegrityFault)
    (h : b.apply policy e = .ok (b2, fs)) (hb : bidAskOk b = true) :
    bidAskOk b2 = true := by
  unfold OrderBook.apply at h
  cases hcb : (applyRaw b e).1.crossed with
  | true =>
    rw [hcb, if_pos rfl] at h
    cases policy with
    | strict => cases h
    | lenient =>
      injection h with h1
      injection h1 with h2 h3
      rw [← h2]
      exact hb
  | false =>
    rw [hcb, if_neg (by simp)] at h
    injection h with h1
    have hb2 : (applyRaw b e).1 = b2 := by rw [h1]
    rw [← hb2]
    simp [bidAskOk, hcb]

theorem applyAll_preserves_bidAskOk (policy : ValidationPolicy) :
    ∀ (events : List BookEvent) (b : OrderBook) (b2 : OrderBook)
      (fs : List BookIntegrityFault),
      bidAskOk b = true →
      b.applyAll policy events = .ok (b2, fs) → bidAskOk b2 = true := by
  intro events
  induction events with
  | nil =>
    intro b b2 fs hb h
    simp only [OrderBook.applyAll, Except.ok.injEq, Prod.mk.injEq] at h
    rw [← h.1]
    exact hb
  | cons e es ih =>
    intro b b2 fs hb h
    simp only [OrderBook.applyAll] at h
    cases h1 : b.apply policy e with
    | error f => rw [h1] at h; cases h
    | ok r =>
      obtain ⟨bm, fsm⟩ := r
      rw [h1] at h
      dsimp only at h
      have hbm : bidAskOk bm = true := apply_preserves_bidAskOk policy b e bm fsm h1 hb
      cases h2 : bm.applyAll policy es with
      | error f => rw [h2] at h; cases h
      | ok r2 =>
        obtain ⟨b3, fs3⟩ := r2
        rw [h2] at h
        dsimp only at h
        injection h with h3
        injection h3 with h4 h5
        rw [← h4]
        exact ih bm b3 fs3 hbm h2

/-- C2: after each event applied by the engine, whenever both sides are
non-empty, `best_bid.price ≤ best_ask.price`: every book reachable by
replaying any event sequence from the empty book (so in particular the
state after each applied event of a run, which is the final state of
the corresponding prefix) satisfies the invariant under either policy;
and a violation is flagged with a `CrossedBookFault` — rolled back
under `Lenient`, aborting under `Strict` — never silently normalized. -/
theorem orderBook_invariant :
    (∀ (policy : ValidationPolicy) (events : List BookEvent) (b2 : OrderBook)
        (fs : List BookIntegrityFault),
        OrderBook.empty.applyAll policy events = .ok (b2, fs) → bidNotAboveAsk b2)
    ∧ (∀ (b : OrderBook) (e : BookEvent),
        (applyRaw b e).1.crossed = true →
          OrderBook.apply .lenient b e
            = .ok (b, (applyRaw b e).2 ++ [.crossedBookFault])
          ∧ OrderBook.apply .strict b e = .error .crossedBookFault) := by
  constructor
  · intro policy events b2 fs h
    exact (bidAskOk_iff b2).mp
      (applyAll_preserves_bidAskOk policy events OrderBook.empty b2 fs rfl h)
  · intro b e hc
    constructor <;> · unfold OrderBook.apply; rw [hc, if_pos rfl]

/-- The two-sided book of the witness below. -/
def demoBook : OrderBook :=
  { bids := [⟨17000, 5, none⟩], asks := [⟨17001, 3, none⟩], summary := L1Summary.empty }

/-- The events building `demoBook` from the empty book. -/
def demoEvents : List BookEvent :=
  [.l2 .bid .add 0 17000 5 none, .l2 .ask .add 0 17001 3 none]

/-- A bid insertion that would cross `demoBook`. -/
def demoCrossEvent : BookEvent := .l2 .bid .add 0 17002 1 none

theorem orderBook_invariant_witness :
    (OrderBook.empty.applyAll .lenient demoEvents = .ok (demoBook, []))
    ∧ bidNotAboveAsk demoBook
    ∧ (applyRaw demoBook demoCrossEvent).1.crossed = true
    ∧ (OrderBook.apply .lenient demoBook demoCrossEvent
          = .ok (demoBook, (applyRaw demoBook demoCrossEvent).2 ++ [.crossedBookFault])
        ∧ OrderBook.apply .strict demoBook demoCrossEvent = .error .crossedBookFault) :=
  ⟨by rfl,
   orderBook_invariant.1 .lenient demoEvents demoBook [] (by rfl),
   by decide,
   orderBook_invariant.2 demoBook demoCrossEvent (by decide)⟩

/-- C3: an `Update` or `Remove` whose depth has no existing level
leaves the book unchanged, raises exactly one non-fatal
`StaleUpdateFault`, and under the `Lenient` policy never aborts the
run. -/
theorem staleUpdateRemove_noop :
    ∀ (b : OrderBook) (side : BookSide) (op : L2Op) (depth : ℕ) (price : ℚ)
      (volume : ℤ) (mm : Option String),
      (op = L2Op.update ∨ op = L2Op.remove) →
      (ladder b side).length ≤ depth →
      applyRaw b (.l2 side op depth price volume mm) = (b, [.staleUpdateFault])
      ∧ (bidAskOk b = true →
          OrderBook.apply .lenient b (.l2 side op depth price volume mm)
            = .ok (b, [.staleUpdateFault]))
      ∧ ∀ f, OrderBook.apply .lenient b (.l2 side op depth price volume mm)
          ≠ .error f := by
  intro b side op depth price volume mm hop hd
  have hget : (ladder b side).get? depth = none := List.get?_eq_none.mpr hd
  have hraw : applyRaw b (.l2 side op depth price volume mm)
      = (b, [.staleUpdateFault]) := by
    rcases hop with rfl | rfl <;>
      · simp only [applyRaw, applyL2, hget]
        cases side <;> rfl
  refine ⟨hraw, ?_, ?_⟩
  · intro hb
    have hc : b.crossed = false := by
      have := hb
      simp only [bidAskOk, Bool.not_eq_true'] at this
      exact this
    unfold OrderBook.apply
    rw [hraw]
    simp [hc]
  · intro f hne
    unfold OrderBook.apply at hne
    rw [hraw] at hne
    cases hc : b.crossed with
    | true => simp [hc] at hne
    | false => simp [hc] at hne

theorem staleUpdateRemove_noop_witness :
    (L2Op.remove = L2Op.update ∨ L2Op.remove = L2Op.remove)
    ∧ (ladder OrderBook.empty .bid).length ≤ 2
    ∧ (applyRaw OrderBook.empty (.l2 .bid .remove 2 0 0 none)
          = (OrderBook.empty, [.staleUpdateFault])
        ∧ (bidAskOk OrderBook.empty = true →
            OrderBook.apply .lenient OrderBook.empty (.l2 .bid .remove 2 0 0 none)
              = .ok (OrderBook.empty, [.staleUpdateFault]))
        ∧ ∀ f, OrderBook.apply .lenient OrderBook.empty (.l2 .bid .remove 2 0 0 none)
            ≠ .error f) :=
  ⟨Or.inr rfl, by decide,
   staleUpdateRemove_noop OrderBook.empty .bid .remove 2 0 0 none (Or.inr rfl) (by decide)⟩

/-! ## Multi-Source Merger (spec §4.3)

Modelled from the spec: the k-way merger is documented (PRD §"Multi-Source
Merger / Rollover Selector", design note "min-heap over per-source
cursors") but its implementation is not present in the source tree.
`popMin` extracts, among the per-source cursors, the head with the
minimal timestamp, ties resolved in favour of the earliest-listed
stream (streams are given in source-declared priority order,
front-month first, stable otherwise); `kmerge` repeats this until all
cursors are exhausted.  The recursion is driven by a fuel argument
equal to the total number of records, which `kmerge_complete` below
shows is exactly enough. -/

/-- The data level of a tick record. -/
inductive DataLevel where
  | l1
  | l2
  deriving DecidableEq, Repr

/-- A decoded tick record (spec §3): `operation`/`depth` are present
iff the record is L2. -/
structure TickRecord where
  level : DataLevel
  mdt : MDT
  timestamp : ℕ
  operation : Option L2Op
  depth : Option ℕ
  market_maker : Option String
  price : ℚ
  volume : ℤ
  deriving DecidableEq, Repr

/-- Timestamp order on tick records. -/
def leTS (a b : TickRecord) : Prop := a.timestamp ≤ b.timestamp

instance : DecidableRel leTS := fun a b => Nat.decLe a.timestamp b.timestamp

/-- The minimal head timestamp among the per-source cursors (none when
all sources are exhausted). -/
def minHead? : List (List TickRecord) → Option ℕ
  | [] => none
  | [] :: rest => minHead? rest
  | (e :: _) :: rest =>
    match minHead? rest with
    | none => some e.timestamp
    | some t => some (min e.timestamp t)

/-- Remove, from the first stream whose head attains the minimal head
timestamp, that head: the extraction step of the k-way merge, with
timestamp ties resolved in favour of the earlier-listed
(higher-priority) stream. -/
def popMin : List (List TickRecord) → Option (TickRecord × List (List TickRecord))
  | [] => none
  | [] :: rest => (popMin rest).map fun r => (r.1, [] :: r.2)
  | (e :: tl) :: rest =>
    match minHead? rest with
    | none => some (e, tl :: rest)
    | some t =>
      if e.timestamp ≤ t then some (e, tl :: rest)
      else (popMin rest).map fun r => (r.1, (e :: tl) :: r.2)

/-- The merge loop, with an explicit fuel bounding the number of
extractions. -/
def kmergeAux : ℕ → List (List TickRecord) → List TickRecord
  | 0, _ => []
  | fuel + 1, streams =>
    match popMin streams with
    | none => []
    | some r => r.1 :: kmergeAux fuel r.2

/-- The k-way merge of the per-contract streams: extract the minimal
head until all cursors are exhausted (the total record count is enough
fuel, by `kmerge_complete`). -/
def kmerge (streams : List (List TickRecord)) : List TickRecord :=
  kmergeAux ((streams.map List.length).sum) streams

theorem minHead?_nil_cons (rest : List (List TickRecord)) :
    minHead? ([] :: rest) = minHead? rest := rfl

theorem minHead?_cons_cons (e : TickRecord) (tl : List TickRecord)
    (rest : List (List TickRecord)) :
    minHead? ((e :: tl) :: rest)
      = match minHead? rest with
        | none => some e.timestamp
        | some t => some (min e.timestamp t) := rfl

theorem popMin_nil_cons (rest : List (List TickRecord)) :
    popMin ([] :: rest) = (popMin rest).map fun r => (r.1, [] :: r.2) := rfl

theorem popMin_cons_cons (e : TickRecord) (tl : List TickRecord)
    (rest : List (List TickRecord)) :
    popMin ((e :: tl) :: rest)
      = match minHead? rest with
        | none => some (e, tl :: rest)
        | some t =>
          if e.timestamp ≤ t then some (e, tl :: rest)
          else (popMin rest).map fun r => (r.1, (e :: tl) :: r.2) := rfl

theorem minHead?_eq_none :
    ∀ streams : List (List TickRecord),
      minHead? streams = none → ∀ l ∈ streams, l = [] := by
  intro streams
  induction streams with
  | nil => intro _ l hl; cases hl
  | cons s rest ih =>
    intro h l hl
    cases s with
    | nil =>
      rcases List.mem_cons.mp hl with rfl | hl
      · rfl
      · exact ih (by rw [← minHead?_nil_cons]; exact h) l hl
    | cons e tl =>
      rw [minHead?_cons_cons] at h
      cases hm : minHead? rest <;> rw [hm] at h <;> cases h

theorem allEmpty_minHead? :
    ∀ streams : List (List TickRecord),
      (∀ l ∈ streams, l = []) → minHead? streams = none := by
  intro streams
  induction streams with
  | nil => intro _; rfl
  | cons s rest ih =>
    intro h
    have hs : s = [] := h s (List.mem_cons_self s rest)
    subst hs
    rw [minHead?_nil_cons]
    exact ih fun l hl => h l (List.mem_cons_of_mem _ hl)

theorem minHead?_le :
    ∀ (streams : List (List TickRecord)) (t : ℕ),
      minHead? streams = some t →
      ∀ l ∈ streams, ∀ y : TickRecord, l.head? = some y → t ≤ y.timestamp := by
  intro streams
  induction streams with
  | nil => intro t h; cases h
  | cons s rest ih =>
    intro t h l hl y hy
    cases s with
    | nil =>
      rcases List.mem_cons.mp hl with rfl | hl
      · cases hy
      · exact ih t (by rw [← minHead?_nil_cons]; exact h) l hl y hy
    | cons e tl =>
      rw [minHead?_cons_cons] at h
      cases hm : minHead? rest with
      | none =>
        rw [hm] at h
        injection h with h
        rcases List.mem_cons.mp hl with rfl | hl
        · injection hy with hy
          rw [← h, ← hy]
        · have hempty := minHead?_eq_none rest hm l hl
          subst hempty
          cases hy
      | some t0 =>
        rw [hm] at h
        injection h with h
        rcases List.mem_cons.mp hl with rfl | hl
        · injection hy with hy
          rw [← h, ← hy]
          exact min_le_left _ _
        · calc t ≤ t0 := by rw [← h]; exact min_le_right _ _
            _ ≤ y.timestamp := ih t0 hm l hl y hy

theorem sorted_head_le :
    ∀ l : List TickRecord, l.Pairwise leTS →
      ∀ x ∈ l, ∀ y : TickRecord, l.head? = some y → y.timestamp ≤ x.timestamp := by
  intro l hl x hx y hy
  cases l with
  | nil => cases hx
  | cons z zs =>
    injection hy with hy
    subst hy
    rcases List.mem_cons.mp hx with rfl | hx
    · exact le_refl _
    · exact (List.pairwise_cons.mp hl).1 x hx

theorem popMin_timestamp :
    ∀ (streams : List (List TickRecord)) (e : TickRecord)
      (s2 : List (List TickRecord)),
      popMin streams = some (e, s2) → minHead? streams = some e.timestamp := by
  intro streams
  induction streams with
  | nil => intro e s2 h; cases h
  | cons s rest ih =>
    intro e s2 h
    cases s with
    | nil =>
      rw [popMin_nil_cons] at h
      cases hr : popMin rest with
      | none => rw [hr] at h; cases h
      | some r =>
        rw [hr] at h
        obtain ⟨e1, s1⟩ := r
        simp only [Option.map_some', Option.some.injEq, Prod.mk.injEq] at h
        obtain ⟨rfl, rfl⟩ := h
        rw [minHead?_nil_cons]
        exact ih e1 s1 hr
    | cons x tl =>
      rw [popMin_cons_cons] at h
      cases hm : minHead? rest with
      | none =>
        rw [hm] at h
        dsimp only at h
        rw [Option.some.injEq, Prod.mk.injEq] at h
        obtain ⟨rfl, rfl⟩ := h
        rw [minHead?_cons_cons, hm]
      | some t =>
        rw [hm] at h
        dsimp only at h
        by_cases hle : x.timestamp ≤ t
        · rw [if_pos hle] at h
          rw [Option.some.injEq, Prod.mk.injEq] at h
          obtain ⟨rfl, rfl⟩ := h
          rw [minHead?_cons_cons, hm]
          dsimp only
          rw [min_eq_left hle]
        · rw [if_neg hle] at h
          cases hr : popMin rest with
          | none => rw [hr] at h; cases h
          | some r =>
            rw [hr] at h
            obtain ⟨e1, s1⟩ := r
            simp only [Option.map_some', Option.some.injEq, Prod.mk.injEq] at h
            obtain ⟨rfl, rfl⟩ := h
            have ht : t = e1.timestamp := by
              have h2 := ih e1 s1 hr
              rw [hm] at h2
              injection h2
            rw [minHead?_cons_cons, hm]
            dsimp only
            rw [min_eq_right (le_of_not_le hle), ht]

theorem kmergeAux_succ (n : ℕ) (streams : List (List TickRecord)) :
    kmergeAux (n + 1) streams
      = match popMin streams with
        | none => []
        | some r => r.1 :: kmergeAux n r.2 := rfl

theorem popMin_sorted :
    ∀ (streams : List (List TickRecord)) (e : TickRecord)
      (s2 : List (List TickRecord)),
      (∀ l ∈ streams, l.Pairwise leTS) → popMin streams = some (e, s2) →
      ∀ l2 ∈ s2, l2.Pairwise leTS := by
  intro streams
  induction streams with
  | nil => intro e s2 _ h; cases h
  | cons s rest ih =>
    intro e s2 hs h l2 hl2
    cases s with
    | nil =>
      rw [popMin_nil_cons] at h
      cases hr : popMin rest with
      | none => rw [hr] at h; cases h
      | some r =>
        rw [hr] at h
        obtain ⟨e1, s1⟩ := r
        simp only [Option.map_some', Option.some.injEq, Prod.mk.injEq] at h
        obtain ⟨rfl, rfl⟩ := h
        rcases List.mem_cons.mp hl2 with rfl | hl2
        · exact List.Pairwise.nil
        · exact ih e1 s1 (fun l hl => hs l (List.mem_cons_of_mem _ hl)) hr l2 hl2
    | cons x tl =>
      rw [popMin_cons_cons] at h
      have hxtl : (x :: tl).Pairwise leTS := hs _ (List.mem_cons_self _ _)
      cases hm : minHead? rest with
      | none =>
        rw [hm] at h
        dsimp only at h
        rw [Option.some.injEq, Prod.mk.injEq] at h
        obtain ⟨rfl, rfl⟩ := h
        rcases List.mem_cons.mp hl2 with rfl | hl2
        · exact (List.pairwise_cons.mp hxtl).2
        · exact hs l2 (List.mem_cons_of_mem _ hl2)
      | some t =>
        rw [hm] at h
        dsimp only at h
        by_cases hle : x.timestamp ≤ t
        · rw [if_pos hle] at h
          rw [Option.some.injEq, Prod.mk.injEq] at h
          obtain ⟨rfl, rfl⟩ := h
          rcases List.mem_cons.mp hl2 with rfl | hl2
          · exact (List.pairwise_cons.mp hxtl).2
          · exact hs l2 (List.mem_cons_of_mem _ hl2)
        · rw [if_neg hle] at h
          cases hr : popMin rest with
          | none => rw [hr] at h; cases h
          | some r =>
            rw [hr] at h
            obtain ⟨e1, s1⟩ := r
            simp only [Option.map_some', Option.some.injEq, Prod.mk.injEq] at h
            obtain ⟨rfl, rfl⟩ := h
            rcases List.mem_cons.mp hl2 with rfl | hl2
            · exact hxtl
            · exact ih e1 s1 (fun l hl => hs l (List.mem_cons_of_mem _ hl)) hr l2 hl2

theorem popMin_subset :
    ∀ (streams : List (List TickRecord)) (e : TickRecord)
      (s2 : List (List TickRecord)),
      popMin streams = some (e, s2) →
      ∀ l2 ∈ s2, ∀ z ∈ l2, ∃ l ∈ streams, z ∈ l := by
  intro streams
  induction streams with
  | nil => intro e s2 h; cases h
  | cons s rest ih =>
    intro e s2 h l2 hl2 z hz
    cases s with
    | nil =>
      rw [popMin_nil_cons] at h
      cases hr : popMin rest with
      | none => rw [hr] at h; cases h
      | some r =>
        rw [hr] at h
        obtain ⟨e1, s1⟩ := r
        simp only [Option.map_some', Option.some.injEq, Prod.mk.injEq] at h
        obtain ⟨rfl, rfl⟩ := h
        rcases List.mem_cons.mp hl2 with rfl | hl2
        · cases hz
        · obtain ⟨l, hl, hzl⟩ := ih e1 s1 hr l2 hl2 z hz
          exact ⟨l, List.mem_cons_of_mem _ hl, hzl⟩
    | cons x tl =>
      rw [popMin_cons_cons] at h
      cases hm : minHead? rest with
      | none =>
        rw [hm] at h
        dsimp only at h
        rw [Option.some.injEq, Prod.mk.injEq] at h
        obtain ⟨rfl, rfl⟩ := h
        rcases List.mem_cons.mp hl2 with rfl | hl2
        · exact ⟨x :: l2, List.mem_cons_self _ _, List.mem_cons_of_mem _ hz⟩
        · exact ⟨l2, List.mem_cons_of_mem _ hl2, hz⟩
      | some t =>
        rw [hm] at h
        dsimp only at h
        by_cases hle : x.timestamp ≤ t
        · rw [if_pos hle] at h
          rw [Option.some.injEq, Prod.mk.injEq] at h
          obtain ⟨rfl, rfl⟩ := h
          rcases List.mem_cons.mp hl2 with rfl | hl2
          · exact ⟨x :: l2, List.mem_cons_self _ _, List.mem_cons_of_mem _ hz⟩
          · exact ⟨l2, List.mem_cons_of_mem _ hl2, hz⟩
        · rw [if_neg hle] at h
          cases hr : popMin rest with
          | none => rw [hr] at h; cases h
          | some r =>
            rw [hr] at h
            obtain ⟨e1, s1⟩ := r
            simp only [Option.map_some', Option.some.injEq, Prod.mk.injEq] at h
            obtain ⟨rfl, rfl⟩ := h
            rcases List.mem_cons.mp hl2 with rfl | hl2
            · exact ⟨x :: tl, List.mem_cons_self _ _, hz⟩
            · obtain ⟨l, hl, hzl⟩ := ih e1 s1 hr l2 hl2 z hz
              exact ⟨l, List.mem_cons_of_mem _ hl, hzl⟩

theorem popMin_head_mem :
    ∀ (streams : List (List TickRecord)) (e : TickRecord)
      (s2 : List (List TickRecord)),
      popMin streams = some (e, s2) → ∃ l ∈ streams, e ∈ l := by
  intro streams
  induction streams with
  | nil => intro e s2 h; cases h
  | cons s rest ih =>
    intro e s2 h
    cases s with
    | nil =>
      rw [popMin_nil_cons] at h
      cases hr : popMin rest with
      | none => rw [hr] at h; cases h
      | some r =>
        rw [hr] at h
        obtain ⟨e1, s1⟩ := r
        simp only [Option.map_some', Option.some.injEq, Prod.mk.injEq] at h
        obtain ⟨rfl, rfl⟩ := h
        obtain ⟨l, hl, hel⟩ := ih e1 s1 hr
        exact ⟨l, List.mem_cons_of_mem _ hl, hel⟩
    | cons x tl =>
      rw [popMin_cons_cons] at h
      cases hm : minHead? rest with
      | none =>
        rw [hm] at h
        dsimp only at h
        rw [Option.some.injEq, Prod.mk.injEq] at h
        obtain ⟨rfl, rfl⟩ := h
        exact ⟨x :: tl, List.mem_cons_self _ _, List.mem_cons_self _ _⟩
      | some t =>
        rw [hm] at h
        dsimp only at h
        by_cases hle : x.timestamp ≤ t
        · rw [if_pos hle] at h
          rw [Option.some.injEq, Prod.mk.injEq] at h
          obtain ⟨rfl, rfl⟩ := h
          exact ⟨x :: tl, List.mem_cons_self _ _, List.mem_cons_self _ _⟩
        · rw [if_neg hle] at h
          cases hr : popMin rest with
          | none => rw [hr] at h; cases h
          | some r =>
            rw [hr] at h
            obtain ⟨e1, s1⟩ := r
            simp only [Option.map_some', Option.some.injEq, Prod.mk.injEq] at h
            obtain ⟨rfl, rfl⟩ := h
            obtain ⟨l, hl, hel⟩ := ih e1 s1 hr
            exact ⟨l, List.mem_cons_of_mem _ hl, hel⟩

theorem popMin_le :
    ∀ (streams : List (List TickRecord)) (e : TickRecord)
      (s2 : List (List TickRecord)),
      (∀ l ∈ streams, l.Pairwise leTS) → popMin streams = some (e, s2) →
      ∀ l2 ∈ s2, ∀ z ∈ l2, e.timestamp ≤ z.timestamp := by
  intro streams
  induction streams with
  | nil => intro e s2 _ h; cases h
  | cons s rest ih =>
    intro e s2 hs h l2 hl2 z hz
    have hrest : ∀ l ∈ rest, l.Pairwise leTS :=
      fun l hl => hs l (List.mem_cons_of_mem _ hl)
    cases s with
    | nil =>
      rw [popMin_nil_cons] at h
      cases hr : popMin rest with
      | none => rw [hr] at h; cases h
      | some r =>
        rw [hr] at h
        obtain ⟨e1, s1⟩ := r
        simp only [Option.map_some', Option.some.injEq, Prod.mk.injEq] at h
        obtain ⟨rfl, rfl⟩ := h
        rcases List.mem_cons.mp hl2 with rfl | hl2
        · cases hz
        · exact ih e1 s1 hrest hr l2 hl2 z hz
    | cons x tl =>
      rw [popMin_cons_cons] at h
      have hxtl : (x :: tl).Pairwise leTS := hs _ (List.mem_cons_self _ _)
      cases hm : minHead? rest with
      | none =>
        rw [hm] at h
        dsimp only at h
        rw [Option.some.injEq, Prod.mk.injEq] at h
        obtain ⟨rfl, rfl⟩ := h
        rcases List.mem_cons.mp hl2 with rfl | hl2
        · exact (List.pairwise_cons.mp hxtl).1 z hz
        · have hempty := minHead?_eq_none rest hm l2 hl2
          subst hempty
          cases hz
      | some t =>
        rw [hm] at h
        dsimp only at h
        by_cases hle : x.timestamp ≤ t
        · rw [if_pos hle] at h
          rw [Option.some.injEq, Prod.mk.injEq] at h
          obtain ⟨rfl, rfl⟩ := h
          rcases List.mem_cons.mp hl2 with rfl | hl2
          · exact (List.pairwise_cons.mp hxtl).1 z hz
          · cases hl : l2 with
            | nil => subst hl; cases hz
            | cons w ws =>
              subst hl
              have h1 : t ≤ w.timestamp := minHead?_le rest t hm _ hl2 w rfl
              have h2 : w.timestamp ≤ z.timestamp :=
                sorted_head_le _ (hrest _ hl2) z hz w rfl
              exact le_trans hle (le_trans h1 h2)
        · rw [if_neg hle] at h
          cases hr : popMin rest with
          | none => rw [hr] at h; cases h
          | some r =>
            rw [hr] at h
            obtain ⟨e1, s1⟩ := r
            simp only [Option.map_some', Option.some.injEq, Prod.mk.injEq] at h
            obtain ⟨rfl, rfl⟩ := h
            have ht : t = e1.timestamp := by
              have h2 := popMin_timestamp rest e1 s1 hr
              rw [hm] at h2
              injection h2
            have hex : e1.timestamp ≤ x.timestamp := by
              rw [← ht]
              exact le_of_not_le hle
            rcases List.mem_cons.mp hl2 with rfl | hl2
            · rcases List.mem_cons.mp hz with rfl | hz
              · exact hex
              · exact le_trans hex ((List.pairwise_cons.mp hxtl).1 z hz)
            · exact ih e1 s1 hrest hr l2 hl2 z hz

theorem popMin_sum :
    ∀ (streams : List (List TickRecord)) (e : TickRecord)
      (s2 : List (List TickRecord)),
      popMin streams = some (e, s2) →
      (s2.map List.length).sum + 1 = (streams.map List.length).sum := by
  intro streams
  induction streams with
  | nil => intro e s2 h; cases h
  | cons s rest ih =>
    intro e s2 h
    cases s with
    | nil =>
      rw [popMin_nil_cons] at h
      cases hr : popMin rest with
      | none => rw [hr] at h; cases h
      | some r =>
        rw [hr] at h
        obtain ⟨e1, s1⟩ := r
        simp only [Option.map_some', Option.some.injEq, Prod.mk.injEq] at h
        obtain ⟨rfl, rfl⟩ := h
        have := ih e1 s1 hr
        simp only [List.map_cons, List.sum_cons, List.length_nil]
        omega
    | cons x tl =>
      rw [popMin_cons_cons] at h
      cases hm : minHead? rest with
      | none =>
        rw [hm] at h
        dsimp only at h
        rw [Option.some.injEq, Prod.mk.injEq] at h
        obtain ⟨rfl, rfl⟩ := h
        simp only [List.map_cons, List.sum_cons, List.length_cons]
        omega
      | some t =>
        rw [hm] at h
        dsimp only at h
        by_cases hle : x.timestamp ≤ t
        · rw [if_pos hle] at h
          rw [Option.some.injEq, Prod.mk.injEq] at h
          obtain ⟨rfl, rfl⟩ := h
          simp only [List.map_cons, List.sum_cons, List.length_cons]
          omega
        · rw [if_neg hle] at h
          cases hr : popMin rest with
          | none => rw [hr] at h; cases h
          | some r =>
            rw [hr] at h
            obtain ⟨e1, s1⟩ := r
            simp only [Option.map_some', Option.some.injEq, Prod.mk.injEq] at h
            obtain ⟨rfl, rfl⟩ := h
            have := ih e1 s1 hr
            simp only [List.map_cons, List.sum_cons, List.length_cons] at this ⊢
            omega

theorem popMin_eq_none :
    ∀ streams : List (List TickRecord),
      popMin streams = none → ∀ l ∈ streams, l = [] := by
  intro streams
  induction streams with
  | nil => intro _ l hl; cases hl
  | cons s rest ih =>
    intro h l hl
    cases s with
    | nil =>
      rw [popMin_nil_cons] at h
      have hr : popMin rest = none := Option.map_eq_none'.mp h
      rcases List.mem_cons.mp hl with rfl | hl
      · rfl
      · exact ih hr l hl
    | cons x tl =>
      rw [popMin_cons_cons] at h
      cases hm : minHead? rest with
      | none => rw [hm] at h; cases h
      | some t =>
        rw [hm] at h
        dsimp only at h
        by_cases hle : x.timestamp ≤ t
        · rw [if_pos hle] at h; cases h
        · rw [if_neg hle] at h
          have hr : popMin rest = none := Option.map_eq_none'.mp h
          have hempty := ih hr
          have := allEmpty_minHead? rest hempty
          rw [this] at hm
          cases hm

theorem kmergeAux_lower :
    ∀ (fuel : ℕ) (streams : List (List TickRecord)) (t : ℕ),
      (∀ l ∈ streams, ∀ z ∈ l, t ≤ z.timestamp) →
      ∀ z ∈ kmergeAux fuel streams, t ≤ z.timestamp := by
  intro fuel
  induction fuel with
  | zero => intro streams t _ z hz; cases hz
  | succ n ih =>
    intro streams t h z hz
    cases hp : popMin streams with
    | none =>
      rw [kmergeAux_succ, hp] at hz
      cases hz
    | some r =>
      obtain ⟨e, s2⟩ := r
      rw [kmergeAux_succ, hp] at hz
      dsimp only at hz
      rcases List.mem_cons.mp hz with rfl | hz
      · obtain ⟨l, hl, hel⟩ := popMin_head_mem streams z s2 hp
        exact h l hl z hel
      · refine ih s2 t ?_ z hz
        intro l2 hl2 w hw
        obtain ⟨l, hl, hwl⟩ := popMin_subset streams e s2 hp l2 hl2 w hw
        exact h l hl w hwl

theorem kmergeAux_sorted :
    ∀ (fuel : ℕ) (streams : List (List TickRecord)),
      (∀ l ∈ streams, l.Pairwise leTS) → (kmergeAux fuel streams).Pairwise leTS := by
  intro fuel
  induction fuel with
  | zero => intro streams _; exact List.Pairwise.nil
  | succ n ih =>
    intro streams hs
    cases hp : popMin streams with
    | none =>
      rw [kmergeAux_succ, hp]
      exact List.Pairwise.nil
    | some r =>
      obtain ⟨e, s2⟩ := r
      rw [kmergeAux_succ, hp]
      dsimp only
      refine List.pairwise_cons.mpr ⟨?_, ih s2 (popMin_sorted streams e s2 hs hp)⟩
      intro z hz
      exact kmergeAux_lower n s2 e.timestamp (popMin_le streams e s2 hs hp) z hz

theorem kmergeAux_length :
    ∀ (fuel : ℕ) (streams : List (List TickRecord)),
      (streams.map List.length).sum = fuel →
      (kmergeAux fuel streams).length = fuel := by
  intro fuel
  induction fuel with
  | zero => intro streams _; rfl
  | succ n ih =>
    intro streams h
    cases hp : popMin streams with
    | none =>
      exfalso
      have hempty := popMin_eq_none streams hp
      have hz : (streams.map List.length).sum = 0 :=
        List.sum_eq_zero fun x hx => by
          obtain ⟨l, hl, rfl⟩ := List.mem_map.mp hx
          rw [hempty l hl]
          rfl
      omega
    | some r =>
      obtain ⟨e, s2⟩ := r
      rw [kmergeAux_succ, hp]
      dsimp only
      rw [List.length_cons]
      have hsum := popMin_sum streams e s2 hp
      have hs2 : (s2.map List.length).sum = n := by omega
      rw [ih s2 hs2]

/-- Completeness of the fuel: the merged stream contains exactly one
record per input record, so the fuel used by `kmerge` never truncates
the merge. -/
theorem kmerge_complete (streams : List (List TickRecord)) :
    (kmerge streams).length = (streams.map List.length).sum :=
  kmergeAux_length _ streams rfl

/-- A simple L1 tick used in concrete merge scenarios. -/
def demoTick (ts : ℕ) (price : ℚ) : TickRecord :=
  { level := .l1, mdt := .last, timestamp := ts, operation := none, depth := none,
    market_maker := none, price := price, volume := 1 }

/-- Tie-break demonstration records: equal timestamps, the first from
the higher-priority (earlier-listed, front-month) source. -/
def tieA : TickRecord := demoTick 100 17000

/-- The deferred-contract record carrying the same timestamp as
`tieA`. -/
def tieB : TickRecord := demoTick 100 17005

/-- Two per-contract streams (in priority order) with interleaved
timestamps, used by the witness below. -/
def demoStreams : List (List TickRecord) :=
  [[demoTick 100 17000, demoTick 300 17002], [demoTick 200 17001]]

/-- C4: for any set of per-contract ordered event streams (given in
source-declared priority order), the k-way merged stream has
non-decreasing timestamps across the whole sequence; timestamp ties are
broken in favour of the higher-priority source, as the concrete tie
scenario shows (`tieA` and `tieB` carry the same timestamp and the
higher-priority record is emitted first). -/
theorem kmerge_monotonic :
    (∀ streams : List (List TickRecord),
        (∀ l ∈ streams, l.Pairwise leTS) → (kmerge streams).Pairwise leTS)
    ∧ kmerge [[tieA], [tieB]] = [tieA, tieB] := by
  constructor
  · intro streams hs
    exact kmergeAux_sorted _ streams hs
  · rfl

theorem kmerge_monotonic_witness :
    (∀ l ∈ demoStreams, l.Pairwise leTS)
    ∧ (kmerge demoStreams).Pairwise leTS :=
  ⟨by decide, kmerge_monotonic.1 demoStreams (by decide)⟩
